import Mathlib

/-!
Verification of the Retirement Bucket Simulator core engine
(src/App.jsx: startSimulation, nextYear, transferFunds, pushHistoryRow,
correlatedReturns/cholesky).

Shallow embedding conventions:
* JS numbers inside the simulation engine are modelled as rationals (ℚ).
  The engine performs only +, -, *, /, max, comparisons and integer powers,
  so rationals model the idealized real-number semantics; every theorem
  about indexed access carries explicit length/in-range hypotheses so the
  `List.getD` default value is never exercised.
* The random return percentages produced by correlatedReturns are an
  injectable input: nextYear takes the sampled percentage vector as an
  explicit argument (the spec itself requires an injectable random source).
* The React component state (balances / history / year / pendingYear) is a
  SimState record.  Each handler is translated return-point by
  return-point: an error path in the JS code (alert + early return, before
  any setState call) becomes a result (st, some e) carrying the untouched
  input state, and a success path returns the updated state with none.
  Multiple setState calls inside one handler are sequential overwrites,
  so the final value of each field is the last one written.
* The Cholesky sampler is embedded separately over a JS-number type JNum
  that represents NaN and the signed infinities explicitly, because the
  behaviour of Math.sqrt on a negative argument (NaN, not an exception)
  is exactly the point at issue in the error-handling claim.
-/

namespace BucketSim

/-- One bucket of the configuration (name, allocation %, average return %,
volatility %), mirroring the DEFAULT_BUCKETS entries in App.jsx.  The engine
itself reads only `allocation` (avgReturn/volatility feed the sampler, whose
output is injected into nextYear as an explicit argument). -/
structure Bucket where
  name : String
  allocation : ℚ
  avgReturn : ℚ
  volatility : ℚ
deriving DecidableEq, Repr

/-- One committed row of the history table, as built by pushHistoryRow:
`{ year, returnsAmt, endValues, total }`. -/
structure HistoryRow where
  year : ℕ
  returnsAmt : List ℚ
  endValues : List ℚ
  total : ℚ
deriving DecidableEq, Repr

/-- The pendingYear record created by nextYear on a manual-mode shortfall. -/
structure PendingYear where
  year : ℕ
  returnsPct : List ℚ
  returnAmounts : List ℚ
  balancesBeforeWithdrawal : List ℚ
  expenseThisYear : ℚ
  shortfall : ℚ
deriving DecidableEq, Repr

/-- The core React component state: balances, history, completed-year
counter and the optional pendingYear. -/
structure SimState where
  balances : List ℚ
  history : List HistoryRow
  year : ℕ
  pending : Option PendingYear
deriving DecidableEq, Repr

/-- The distinct alert/early-return conditions of the three handlers. -/
inductive SimError where
  | configuration       -- startSimulation: allocation does not round to 100
  | notStarted          -- balances empty
  | stateConflict       -- nextYear while a pendingYear exists
  | sameBucket          -- transferFunds: from === to
  | nonPositiveAmount   -- transferFunds: amount <= 0
  | insufficientBalance -- transferFunds: balances[from] < amount
deriving DecidableEq, Repr

/-- JS Math.round on an idealized real argument: round half toward
positive infinity, i.e. ⌊q + 1/2⌋. -/
def jsRound (q : ℚ) : ℤ := ⌊q + 1 / 2⌋

/-- Read of a balance/amount list.  Every theorem below carries explicit
in-range hypotheses, so the default 0 for an out-of-range read (JS would
give undefined) is never exercised. -/
def qget (l : List ℚ) (i : ℕ) : ℚ := l.getD i 0

/-- The initial React state: balances [], history [], year 0, pendingYear
null. -/
def initialState : SimState := ⟨[], [], 0, none⟩

/-- startSimulation (App.jsx lines 69-91): reject unless
Math.round(allocationSum) === 100, otherwise install
corpus × allocation/100 per bucket and clear history / year / pendingYear.
On rejection (alert + return) the state is untouched. -/
def startSimulation (buckets : List Bucket) (corpus : ℚ) (st : SimState) :
    SimState × Option SimError :=
  let allocationSum : ℚ := buckets.foldl (fun s b => s + b.allocation) 0
  if jsRound allocationSum ≠ 100 then
    (st, some .configuration)
  else
    ({ balances := buckets.map (fun b => corpus * (b.allocation / 100)),
       history := [], year := 0, pending := none }, none)

/-- This year's expense: firstYearExpenses × (1 + inflation/100)^year
(App.jsx line 113). -/
def expenseFor (firstYearExpenses inflation : ℚ) (year : ℕ) : ℚ :=
  firstYearExpenses * (1 + inflation / 100) ^ year

/-- Return application (App.jsx lines 121-125):
newBalances[i] = max(0, balances[i] + balances[i] * (returnsPct[i]/100)). -/
def applyReturns (balances returnsPct : List ℚ) : List ℚ :=
  (List.range balances.length).map (fun i =>
    max 0 (qget balances i + qget balances i * (qget returnsPct i / 100)))

/-- returnAmounts[i] = newBalances[i] - balances[i] (App.jsx line 127). -/
def returnAmountsOf (newBalances balances : List ℚ) : List ℚ :=
  (List.range newBalances.length).map (fun i =>
    qget newBalances i - qget balances i)

/-- pushHistoryRow (App.jsx lines 173-182): build the row with the total of
the ending balances. -/
def mkRow (yearIndex : ℕ) (returnAmounts endBalances : List ℚ) : HistoryRow :=
  { year := yearIndex, returnsAmt := returnAmounts, endValues := endBalances,
    total := endBalances.foldl (fun s v => s + v) 0 }

/-- The auto-mode withdrawal loop (App.jsx lines 153-160): walk the buckets
in order, take min(balance, remainingExpense) from each, and break as soon
as the remaining expense is ≤ 0 (leaving the suffix untouched).  Returns
the balances after the loop together with the final remainingExpense. -/
def autoLoop : List ℚ → ℚ → List ℚ × ℚ
  | [], rem => ([], rem)
  | b :: bs, rem =>
    let take := min b rem
    let rem2 := rem - take
    if rem2 ≤ 0 then ((b - take) :: bs, rem2)
    else
      let p := autoLoop bs rem2
      ((b - take) :: p.1, p.2)

/-- nextYear (App.jsx lines 94-170).  `manualMode` is the modeManual flag,
`returnsPct` is the sampled correlated-return vector (injected; drawn
exactly once per call in the JS code).  Error paths return the input state
unchanged. -/
def nextYear (manualMode : Bool) (firstYearExpenses inflation : ℚ)
    (returnsPct : List ℚ) (st : SimState) : SimState × Option SimError :=
  if st.balances = [] then (st, some .notStarted)
  else if st.pending.isSome then (st, some .stateConflict)
  else
    let nextYearIndex := st.year + 1
    let expenseThisYear := expenseFor firstYearExpenses inflation st.year
    let newBalances := applyReturns st.balances returnsPct
    let returnAmounts := returnAmountsOf newBalances st.balances
    if manualMode then
      if expenseThisYear ≤ qget newBalances 0 then
        let nb := newBalances.set 0 (qget newBalances 0 - expenseThisYear)
        ({ balances := nb,
           history := st.history ++ [mkRow nextYearIndex returnAmounts nb],
           year := nextYearIndex, pending := none }, none)
      else
        let pNew : PendingYear :=
          { year := nextYearIndex, returnsPct := returnsPct,
            returnAmounts := returnAmounts,
            balancesBeforeWithdrawal := newBalances,
            expenseThisYear := expenseThisYear,
            shortfall := expenseThisYear - qget newBalances 0 }
        ({ st with pending := some pNew }, none)
    else
      let p := autoLoop newBalances expenseThisYear
      let autoBalances := if 0 < p.2 then p.1.map (fun _ => (0 : ℚ)) else p.1
      ({ balances := autoBalances,
         history := st.history ++ [mkRow nextYearIndex returnAmounts autoBalances],
         year := nextYearIndex, pending := none }, none)

/-- Apply the transfer delta to a balance list:
l[fromIdx] -= amount; l[toIdx] += amount (used for both the live balances
and the pending snapshot; fromIdx ≠ toIdx on every reachable call site). -/
def applyDelta (l : List ℚ) (fromIdx toIdx : ℕ) (amount : ℚ) : List ℚ :=
  let l1 := l.set fromIdx (qget l fromIdx - amount)
  l1.set toIdx (qget l1 toIdx + amount)

/-- transferFunds (App.jsx lines 185-258).  The four rejection checks come
in source order (from === to, balances empty, amount ≤ 0, insufficient
source balance); on rejection the state is untouched.  On success the delta
is applied to the live balances and, if a pendingYear exists, also to its
snapshot; if the snapshot liquid bucket then covers the pending expense,
the year is committed: the expense is subtracted from the snapshot liquid
bucket, a row with the pending returnAmounts is appended (after filtering
out any row with the same year), the live balances are overwritten by the
resolved snapshot (the later setBalances wins), the year counter becomes
the pending year and the pendingYear is cleared.  In the JS code the
returnsAmt of the committed row is `pendingYear.returnAmounts ? ... : ...`;
returnAmounts is always an array (truthy) for a pendingYear created by
nextYear, so the fallback branch is dead and the embedding uses
returnAmounts directly. -/
def transferFunds (fromIdx toIdx : ℕ) (amount : ℚ) (st : SimState) :
    SimState × Option SimError :=
  if fromIdx = toIdx then (st, some .sameBucket)
  else if st.balances = [] then (st, some .notStarted)
  else if amount ≤ 0 then (st, some .nonPositiveAmount)
  else if qget st.balances fromIdx < amount then (st, some .insufficientBalance)
  else
    let newBalances := applyDelta st.balances fromIdx toIdx amount
    match st.pending with
    | none => ({ st with balances := newBalances }, none)
    | some p =>
      let pb := applyDelta p.balancesBeforeWithdrawal fromIdx toIdx amount
      if p.expenseThisYear ≤ qget pb 0 then
        let pbFinal := pb.set 0 (qget pb 0 - p.expenseThisYear)
        ({ balances := pbFinal,
           history := st.history.filter (fun r => r.year ≠ p.year) ++
             [{ year := p.year, returnsAmt := p.returnAmounts,
                endValues := pbFinal,
                total := pbFinal.foldl (fun s v => s + v) 0 }],
           year := p.year, pending := none }, none)
      else
        let pNew : PendingYear :=
          { p with balancesBeforeWithdrawal := pb,
                   shortfall := p.expenseThisYear - qget pb 0 }
        ({ st with balances := newBalances, pending := some pNew }, none)

/-- One engine step after start: a nextYear call (with arbitrary
parameters and sampled returns) or a transferFunds call, successful or
rejected; the resulting observable state is the first component. -/
inductive SimStep : SimState → SimState → Prop where
  | next (manualMode : Bool) (fye infl : ℚ) (returnsPct : List ℚ) (st : SimState) :
      SimStep st (nextYear manualMode fye infl returnsPct st).1
  | transfer (fromIdx toIdx : ℕ) (amount : ℚ) (st : SimState) :
      SimStep st (transferFunds fromIdx toIdx amount st).1

/-- States reachable within one run: a successful startSimulation followed
by any sequence of nextYear / transferFunds calls. -/
inductive Reachable : SimState → Prop where
  | start (buckets : List Bucket) (corpus : ℚ) (st0 st : SimState)
      (h : startSimulation buckets corpus st0 = (st, none)) : Reachable st
  | step (st st' : SimState) (h : Reachable st) (hs : SimStep st st') : Reachable st'

/-! ## The correlated-return sampler (correlatedReturns / cholesky)

The sampler is embedded over an explicit JS-number model: a rational, a
signed infinity, or NaN.  Math.sqrt of a negative number is NaN (it does
not throw); arithmetic on NaN yields NaN; out-of-range array reads are
undefined, and undefined entering arithmetic yields NaN, so the list
accessor for this part uses NaN as its default.  The square root of a
non-negative rational is represented by Rat.sqrt (exact whenever the
argument is a perfect square of a rational, which covers every value the
results below evaluate; negative arguments — the case at issue — are
exact by definition). -/

/-- A JS number: a (rationally-represented) finite value, ±Infinity or NaN. -/
inductive JNum where
  | num (q : ℚ)
  | pinf
  | ninf
  | nan
deriving DecidableEq, Repr

namespace JNum

/-- JS unary minus. -/
def jneg : JNum → JNum
  | num q => num (-q)
  | pinf => ninf
  | ninf => pinf
  | nan => nan

/-- JS addition. -/
def jadd : JNum → JNum → JNum
  | nan, _ => nan
  | _, nan => nan
  | pinf, ninf => nan
  | ninf, pinf => nan
  | pinf, _ => pinf
  | _, pinf => pinf
  | ninf, _ => ninf
  | _, ninf => ninf
  | num a, num b => num (a + b)

/-- JS subtraction. -/
def jsub (a b : JNum) : JNum := jadd a (jneg b)

/-- JS multiplication (note Infinity × 0 = NaN and NaN × x = NaN, even for
x = 0). -/
def jmul : JNum → JNum → JNum
  | nan, _ => nan
  | _, nan => nan
  | pinf, pinf => pinf
  | pinf, ninf => ninf
  | ninf, pinf => ninf
  | ninf, ninf => pinf
  | pinf, num b => if b = 0 then nan else if 0 < b then pinf else ninf
  | num a, pinf => if a = 0 then nan else if 0 < a then pinf else ninf
  | ninf, num b => if b = 0 then nan else if 0 < b then ninf else pinf
  | num a, ninf => if a = 0 then nan else if 0 < a then ninf else pinf
  | num a, num b => num (a * b)

/-- JS division.  Rationals carry no signed zero, so division of a finite
value by zero takes the +0 orientation (x/0 = +Infinity for x > 0). -/
def jdiv : JNum → JNum → JNum
  | nan, _ => nan
  | _, nan => nan
  | pinf, pinf => nan
  | pinf, ninf => nan
  | ninf, pinf => nan
  | ninf, ninf => nan
  | pinf, num b => if 0 ≤ b then pinf else ninf
  | ninf, num b => if 0 ≤ b then ninf else pinf
  | num _, pinf => num 0
  | num _, ninf => num 0
  | num a, num b =>
    if b = 0 then (if a = 0 then nan else if 0 < a then pinf else ninf)
    else num (a / b)

/-- JS Math.sqrt: NaN on any negative argument (the behaviour the
error-handling claim is about); Rat.sqrt on non-negative rationals. -/
def jsqrt : JNum → JNum
  | nan => nan
  | pinf => pinf
  | ninf => nan
  | num q => if q < 0 then nan else num (Rat.sqrt q)

end JNum

/-- JS array read: out-of-range gives undefined, which behaves as NaN once
it enters arithmetic. -/
def jget (l : List JNum) (i : ℕ) : JNum := l.getD i .nan

/-- JS read of a row of a matrix (a missing row makes every entry read as
NaN via jget). -/
def jrow (m : List (List JNum)) (i : ℕ) : List JNum := m.getD i []

/-- The inner accumulation of the cholesky loops (App.jsx lines 827-828):
sum over k < j of L[i][k] × L[j][k], where r is row i and rj is row j. -/
def chsum (r rj : List JNum) (j : ℕ) : JNum :=
  (List.range j).foldl (fun s k => JNum.jadd s (JNum.jmul (jget r k) (jget rj k))) (.num 0)

/-- Row i of L built entry by entry, left to right, exactly in the order of
the j-loop of cholesky (App.jsx lines 826-832): entry j for j < i is
(A[i][j] − Σ_{k<j} L[i][k]L[j][k]) / L[j][j], and the diagonal entry is
√(A[i][i] − Σ_{k<i} L[i][k]²).  prev holds the previously completed rows;
each entry reads only prev and the part of the row already built, matching
the write-once discipline of the imperative loop. -/
def rowUpTo (A prev : List (List JNum)) (i : ℕ) : ℕ → List JNum
  | 0 => []
  | j + 1 =>
    let r := rowUpTo A prev i j
    let entry :=
      if j = i then
        JNum.jsqrt (JNum.jsub (jget (jrow A i) i) (chsum r r j))
      else
        JNum.jdiv (JNum.jsub (jget (jrow A i) j) (chsum r (jrow prev j) j))
          (jget (jrow prev j) j)
    r ++ [entry]

/-- The first n rows of the Cholesky factor L, built row by row in the
order of the outer i-loop of cholesky. -/
def cholRows (A : List (List JNum)) : ℕ → List (List JNum)
  | 0 => []
  | n + 1 => cholRows A n ++ [rowUpTo A (cholRows A n) n (n + 1)]

/-- cholesky(A) for an n-bucket run (App.jsx lines 823-835).  Rows are kept
in lower-triangular form; the strict upper triangle of the JS matrix is
identically zero and is never read by the caller (its j-loop stops at
j = i). -/
def cholesky (A : List (List JNum)) (n : ℕ) : List (List JNum) := cholRows A n

/-- correlated[i] = Σ_{j ≤ i} L[i][j] × z[j] (App.jsx lines 840-845),
accumulated in loop order from 0. -/
def correlatedOf (L : List (List JNum)) (z : List JNum) (i : ℕ) : JNum :=
  (List.range (i + 1)).foldl
    (fun s j => JNum.jadd s (JNum.jmul (jget (jrow L i) j) (jget z j))) (.num 0)

/-- The error vocabulary the specification assigns to the sampler. -/
inductive SampleError where
  | decompositionError
deriving DecidableEq, Repr

/-- correlatedReturns (App.jsx lines 820-848) with the n independent
standard-normal draws z injected.  The body contains no throw and no
error return of any kind, so the Except channel — the type a failing
sampler would use — is never the error case: the function always returns
ok with avg[i] + correlated[i] × vol[i] per bucket. -/
def correlatedReturns (avgReturns volatilities : List JNum)
    (A : List (List JNum)) (z : List JNum) : Except SampleError (List JNum) :=
  let n := avgReturns.length
  let L := cholesky A n
  Except.ok ((List.range n).map (fun i =>
    JNum.jadd (jget avgReturns i) (JNum.jmul (correlatedOf L z i) (jget volatilities i))))

/-- The argument handed to Math.sqrt when the factorization computes the
diagonal entry L[i][i]: A[i][i] − Σ_{k<i} L[i][k]², with the already-built
prefix of row i.  A negative value here is exactly the claim's
"negative value under a square root during Cholesky factorization". -/
def sqrtArgAt (A : List (List JNum)) (i : ℕ) : JNum :=
  let r := rowUpTo A (cholRows A i) i i
  JNum.jsub (jget (jrow A i) i) (chsum r r i)

/-! ## List access helpers -/

theorem qget_set_self {l : List ℚ} {i : ℕ} {v : ℚ} (h : i < l.length) :
    qget (l.set i v) i = v := by
  simp [qget, List.getD, List.getElem?_set_self', h]

theorem qget_set_ne {l : List ℚ} {i j : ℕ} {v : ℚ} (h : i ≠ j) :
    qget (l.set i v) j = qget l j := by
  simp [qget, List.getD, List.getElem?_set_ne h]

theorem qget_range_map {n i : ℕ} {f : ℕ → ℚ} (h : i < n) :
    qget ((List.range n).map f) i = f i := by
  simp [qget, List.getD, List.getElem?_map, List.getElem?_range h]

theorem qget_append_left {l l2 : List ℚ} {i : ℕ} (h : i < l.length) :
    qget (l ++ l2) i = qget l i := by
  simp [qget, List.getD, List.getElem?_append_left h]

/-! ## Facts about the return-application step -/

theorem applyReturns_length (balances returnsPct : List ℚ) :
    (applyReturns balances returnsPct).length = balances.length := by
  simp [applyReturns]

theorem applyReturns_nonneg (balances returnsPct : List ℚ) :
    ∀ x ∈ applyReturns balances returnsPct, 0 ≤ x := by
  intro x hx
  simp only [applyReturns, List.mem_map, List.mem_range] at hx
  obtain ⟨i, -, rfl⟩ := hx
  exact le_max_left 0 _

theorem applyReturns_qget {balances returnsPct : List ℚ} {i : ℕ}
    (h : i < balances.length) :
    qget (applyReturns balances returnsPct) i =
      max 0 (qget balances i + qget balances i * (qget returnsPct i / 100)) := by
  simp only [applyReturns]
  exact qget_range_map h

/-! ## Facts about the auto-mode withdrawal loop -/

theorem autoLoop_length (bs : List ℚ) (rem : ℚ) :
    (autoLoop bs rem).1.length = bs.length := by
  induction bs generalizing rem with
  | nil => simp [autoLoop]
  | cons b bs ih =>
    simp only [autoLoop]
    split
    · simp
    · simpa using ih _

/-- Conservation through the loop: the amount taken out of the buckets is
the decrease of the remaining expense. -/
theorem autoLoop_sum (bs : List ℚ) (rem : ℚ) :
    (autoLoop bs rem).1.sum = bs.sum - (rem - (autoLoop bs rem).2) := by
  induction bs generalizing rem with
  | nil => simp [autoLoop]
  | cons b bs ih =>
    simp only [autoLoop]
    split
    · simp only [List.sum_cons]; ring
    · simp only [List.sum_cons, ih]; ring

/-- The remaining expense after the loop: either the loop covered the whole
expense (remainder 0) or it emptied every bucket and the positive remainder
is the expense minus the total (needs non-negative buckets, which
applyReturns guarantees). -/
theorem autoLoop_rem (bs : List ℚ) (rem : ℚ) (hnn : ∀ b ∈ bs, 0 ≤ b)
    (hne : bs ≠ []) :
    (autoLoop bs rem).2 = 0 ∨
      ((autoLoop bs rem).2 = rem - bs.sum ∧ 0 < (autoLoop bs rem).2) := by
  induction bs generalizing rem with
  | nil => exact absurd rfl hne
  | cons b bs ih =>
    have hb : 0 ≤ b := hnn b (List.mem_cons_self b bs)
    simp only [autoLoop]
    split
    · rename_i hle
      left
      rcases le_or_lt rem b with h | h
      · simp [min_eq_right h]
      · exfalso
        rw [min_eq_left h.le] at hle
        nlinarith
    · rename_i hgt
      push_neg at hgt
      have hminb : min b rem = b := by
        rcases le_or_lt rem b with h | h
        · rw [min_eq_right h] at hgt; simp at hgt
        · exact min_eq_left h.le
      by_cases hbs : bs = []
      · subst hbs
        right
        constructor
        · simp [autoLoop, hminb]
        · simpa [autoLoop] using hgt
      · rcases ih (rem - min b rem)
          (fun x hx => hnn x (List.mem_cons_of_mem b hx)) hbs with h | ⟨h1, h2⟩
        · left; exact h
        · right
          refine ⟨?_, h2⟩
          rw [h1, hminb]
          simp only [List.sum_cons]
          ring

/-- Every balance left by the loop is non-negative when the input balances
are. -/
theorem autoLoop_nonneg (bs : List ℚ) (rem : ℚ) (hnn : ∀ b ∈ bs, 0 ≤ b) :
    ∀ x ∈ (autoLoop bs rem).1, 0 ≤ x := by
  induction bs generalizing rem with
  | nil => simp [autoLoop]
  | cons b bs ih =>
    have hb : 0 ≤ b := hnn b (List.mem_cons_self b bs)
    simp only [autoLoop]
    split
    · intro x hx
      rcases List.mem_cons.mp hx with rfl | hx
      · simp [sub_nonneg, min_le_left]
      · exact hnn x (List.mem_cons_of_mem b hx)
    · intro x hx
      rcases List.mem_cons.mp hx with rfl | hx
      · simp [sub_nonneg, min_le_left]
      · exact ih _ (fun y hy => hnn y (List.mem_cons_of_mem b hy)) x hx

/-! ## Branch characterizations of the two handlers -/

theorem nextYear_notStarted {st : SimState} (m : Bool) (fye infl : ℚ)
    (rp : List ℚ) (hb : st.balances = []) :
    nextYear m fye infl rp st = (st, some .notStarted) := by
  simp [nextYear, hb]

theorem nextYear_conflict {st : SimState} (m : Bool) (fye infl : ℚ)
    (rp : List ℚ) (hb : st.balances ≠ []) (hp : st.pending.isSome) :
    nextYear m fye infl rp st = (st, some .stateConflict) := by
  simp [nextYear, hb, hp]

theorem nextYear_manual_commit {st : SimState} (fye infl : ℚ) (rp : List ℚ)
    (hb : st.balances ≠ []) (hp : st.pending = none)
    (hc : expenseFor fye infl st.year ≤ qget (applyReturns st.balances rp) 0) :
    nextYear true fye infl rp st =
      ({ balances := (applyReturns st.balances rp).set 0
           (qget (applyReturns st.balances rp) 0 - expenseFor fye infl st.year),
         history := st.history ++ [mkRow (st.year + 1)
           (returnAmountsOf (applyReturns st.balances rp) st.balances)
           ((applyReturns st.balances rp).set 0
             (qget (applyReturns st.balances rp) 0 - expenseFor fye infl st.year))],
         year := st.year + 1, pending := none }, none) := by
  simp [nextYear, hb, hp, hc]

/-- The pendingYear record created on a manual-mode shortfall. -/
def mkPending (st : SimState) (fye infl : ℚ) (rp : List ℚ) : PendingYear :=
  { year := st.year + 1, returnsPct := rp,
    returnAmounts := returnAmountsOf (applyReturns st.balances rp) st.balances,
    balancesBeforeWithdrawal := applyReturns st.balances rp,
    expenseThisYear := expenseFor fye infl st.year,
    shortfall := expenseFor fye infl st.year - qget (applyReturns st.balances rp) 0 }

theorem nextYear_shortfall {st : SimState} (fye infl : ℚ) (rp : List ℚ)
    (hb : st.balances ≠ []) (hp : st.pending = none)
    (hc : qget (applyReturns st.balances rp) 0 < expenseFor fye infl st.year) :
    nextYear true fye infl rp st =
      ({ st with pending := some (mkPending st fye infl rp) }, none) := by
  simp [nextYear, hb, hp, not_le.mpr hc, mkPending]

/-- The balances produced by the auto-mode withdrawal: the loop result,
or all zeros when the loop could not cover the whole expense. -/
def autoBalancesOf (st : SimState) (fye infl : ℚ) (rp : List ℚ) : List ℚ :=
  if 0 < (autoLoop (applyReturns st.balances rp) (expenseFor fye infl st.year)).2 then
    (autoLoop (applyReturns st.balances rp) (expenseFor fye infl st.year)).1.map
      (fun _ => (0 : ℚ))
  else (autoLoop (applyReturns st.balances rp) (expenseFor fye infl st.year)).1

theorem nextYear_auto {st : SimState} (fye infl : ℚ) (rp : List ℚ)
    (hb : st.balances ≠ []) (hp : st.pending = none) :
    nextYear false fye infl rp st =
      ({ balances := autoBalancesOf st fye infl rp,
         history := st.history ++ [mkRow (st.year + 1)
           (returnAmountsOf (applyReturns st.balances rp) st.balances)
           (autoBalancesOf st fye infl rp)],
         year := st.year + 1, pending := none }, none) := by
  simp [nextYear, hb, hp, autoBalancesOf]

theorem transferFunds_sameBucket {st : SimState} {fromIdx toIdx : ℕ}
    (amount : ℚ) (h : fromIdx = toIdx) :
    transferFunds fromIdx toIdx amount st = (st, some .sameBucket) := by
  simp [transferFunds, h]

theorem transferFunds_notStarted {st : SimState} {fromIdx toIdx : ℕ}
    (amount : ℚ) (h : fromIdx ≠ toIdx) (hb : st.balances = []) :
    transferFunds fromIdx toIdx amount st = (st, some .notStarted) := by
  simp [transferFunds, h, hb]

theorem transferFunds_nonPositive {st : SimState} {fromIdx toIdx : ℕ}
    {amount : ℚ} (h : fromIdx ≠ toIdx) (hb : st.balances ≠ [])
    (ha : amount ≤ 0) :
    transferFunds fromIdx toIdx amount st = (st, some .nonPositiveAmount) := by
  simp [transferFunds, h, hb, ha]

theorem transferFunds_insufficient {st : SimState} {fromIdx toIdx : ℕ}
    {amount : ℚ} (h : fromIdx ≠ toIdx) (hb : st.balances ≠ [])
    (ha : 0 < amount) (hi : qget st.balances fromIdx < amount) :
    transferFunds fromIdx toIdx amount st = (st, some .insufficientBalance) := by
  simp [transferFunds, h, hb, not_le.mpr ha, hi]

theorem transferFunds_idle {st : SimState} {fromIdx toIdx : ℕ} {amount : ℚ}
    (h : fromIdx ≠ toIdx) (hb : st.balances ≠ []) (ha : 0 < amount)
    (hi : amount ≤ qget st.balances fromIdx) (hp : st.pending = none) :
    transferFunds fromIdx toIdx amount st =
      ({ st with balances := applyDelta st.balances fromIdx toIdx amount }, none) := by
  simp [transferFunds, h, hb, not_le.mpr ha, not_lt.mpr hi, hp]

/-- The resolved-snapshot balances: delta applied, expense subtracted from
the liquid bucket. -/
def resolvedBalances (p : PendingYear) (fromIdx toIdx : ℕ) (amount : ℚ) : List ℚ :=
  let pb := applyDelta p.balancesBeforeWithdrawal fromIdx toIdx amount
  pb.set 0 (qget pb 0 - p.expenseThisYear)

theorem transferFunds_resolve {st : SimState} {fromIdx toIdx : ℕ} {amount : ℚ}
    {p : PendingYear} (h : fromIdx ≠ toIdx) (hb : st.balances ≠ [])
    (ha : 0 < amount) (hi : amount ≤ qget st.balances fromIdx)
    (hp : st.pending = some p)
    (hr : p.expenseThisYear ≤
      qget (applyDelta p.balancesBeforeWithdrawal fromIdx toIdx amount) 0) :
    transferFunds fromIdx toIdx amount st =
      ({ balances := resolvedBalances p fromIdx toIdx amount,
         history := st.history.filter (fun r => r.year ≠ p.year) ++
           [{ year := p.year, returnsAmt := p.returnAmounts,
              endValues := resolvedBalances p fromIdx toIdx amount,
              total := (resolvedBalances p fromIdx toIdx amount).foldl
                (fun s v => s + v) 0 }],
         year := p.year, pending := none }, none) := by
  simp [transferFunds, h, hb, not_le.mpr ha, not_lt.mpr hi, hp, hr,
    resolvedBalances]

/-- The pendingYear after a non-resolving transfer: same year, returns and
expense, updated snapshot and shortfall. -/
def stayPending (p : PendingYear) (fromIdx toIdx : ℕ) (amount : ℚ) : PendingYear :=
  { p with
    balancesBeforeWithdrawal := applyDelta p.balancesBeforeWithdrawal fromIdx toIdx amount,
    shortfall := p.expenseThisYear -
      qget (applyDelta p.balancesBeforeWithdrawal fromIdx toIdx amount) 0 }

theorem transferFunds_stay {st : SimState} {fromIdx toIdx : ℕ} {amount : ℚ}
    {p : PendingYear} (h : fromIdx ≠ toIdx) (hb : st.balances ≠ [])
    (ha : 0 < amount) (hi : amount ≤ qget st.balances fromIdx)
    (hp : st.pending = some p)
    (hr : qget (applyDelta p.balancesBeforeWithdrawal fromIdx toIdx amount) 0 <
      p.expenseThisYear) :
    transferFunds fromIdx toIdx amount st =
      ({ balances := applyDelta st.balances fromIdx toIdx amount,
         history := st.history, year := st.year,
         pending := some (stayPending p fromIdx toIdx amount) }, none) := by
  simp [transferFunds, h, hb, not_le.mpr ha, not_lt.mpr hi, hp, not_le.mpr hr,
    stayPending]

/-- A successful transferFunds call implies the four preconditions. -/
theorem transferFunds_ok_conditions {st : SimState} {fromIdx toIdx : ℕ}
    {amount : ℚ} (h : (transferFunds fromIdx toIdx amount st).2 = none) :
    fromIdx ≠ toIdx ∧ st.balances ≠ [] ∧ 0 < amount ∧
      amount ≤ qget st.balances fromIdx := by
  by_cases h1 : fromIdx = toIdx
  · rw [transferFunds_sameBucket amount h1] at h; simp at h
  by_cases h2 : st.balances = []
  · rw [transferFunds_notStarted amount h1 h2] at h; simp at h
  by_cases h3 : amount ≤ 0
  · rw [transferFunds_nonPositive h1 h2 h3] at h; simp at h
  push_neg at h3
  by_cases h4 : qget st.balances fromIdx < amount
  · rw [transferFunds_insufficient h1 h2 h3 h4] at h; simp at h
  · exact ⟨h1, h2, h3, not_lt.mp h4⟩

/-! ## The history invariant and its preservation -/

/-- Invariant of every reachable state: committed year indices are strictly
increasing, positive and bounded by the completed-year counter, and a
pendingYear (when present) carries the year after the counter. -/
def HistInv (st : SimState) : Prop :=
  List.Chain' (fun a b => a < b) (st.history.map HistoryRow.year) ∧
  (∀ r ∈ st.history, 0 < r.year ∧ r.year ≤ st.year) ∧
  (∀ p, st.pending = some p → p.year = st.year + 1)

theorem filter_year_ne {hist : List HistoryRow} {y : ℕ}
    (h : ∀ r ∈ hist, r.year ≠ y) :
    hist.filter (fun r => r.year ≠ y) = hist := by
  rw [List.filter_eq_self]
  intro a ha
  simpa using h a ha

theorem chain'_lt_append_single {l : List ℕ} {y : ℕ}
    (hc : List.Chain' (fun a b => a < b) l) (h : ∀ a ∈ l, a < y) :
    List.Chain' (fun a b => a < b) (l ++ [y]) := by
  rw [List.chain'_append]
  refine ⟨hc, List.chain'_singleton y, ?_⟩
  intro x hx z hz
  simp only [List.head?_cons, Option.mem_def, Option.some.injEq] at hz
  subst hz
  exact h x (List.mem_of_mem_getLast? hx)

/-- Appending a row for the next year (and advancing the counter, clearing
the pendingYear) preserves the history invariant, whatever the new
balances. -/
theorem histInv_append_row (row : HistoryRow) {hist : List HistoryRow} {yr : ℕ}
    (hchain : List.Chain' (fun a b => a < b) (hist.map HistoryRow.year))
    (hbound : ∀ r ∈ hist, 0 < r.year ∧ r.year ≤ yr)
    (hrow : row.year = yr + 1) (nb : List ℚ) :
    HistInv ⟨nb, hist ++ [row], yr + 1, none⟩ := by
  refine ⟨?_, ?_, ?_⟩
  · rw [List.map_append]
    refine chain'_lt_append_single hchain ?_
    intro a ha
    simp only [List.mem_map] at ha
    obtain ⟨r, hr, rfl⟩ := ha
    rw [hrow]
    exact Nat.lt_succ_of_le (hbound r hr).2
  · intro r hr
    rcases List.mem_append.mp hr with hr | hr
    · exact ⟨(hbound r hr).1, Nat.le_succ_of_le (hbound r hr).2⟩
    · rcases List.mem_singleton.mp hr with rfl
      rw [hrow]
      exact ⟨Nat.succ_pos yr, le_refl _⟩
  · intro p hp
    simp at hp

/-- Every engine step preserves the history invariant, and the history only
ever grows by at most one appended row. -/
theorem histInv_step {st st' : SimState} (hinv : HistInv st)
    (hs : SimStep st st') :
    HistInv st' ∧ ∃ t, st'.history = st.history ++ t ∧ t.length ≤ 1 := by
  obtain ⟨hchain, hbound, hpend⟩ := hinv
  cases hs with
  | next m fye infl rp st =>
    by_cases hb : st.balances = []
    · rw [nextYear_notStarted m fye infl rp hb]
      exact ⟨⟨hchain, hbound, hpend⟩, [], by simp, by simp⟩
    cases hps : st.pending with
    | some p =>
      rw [nextYear_conflict m fye infl rp hb (by rw [hps]; rfl)]
      exact ⟨⟨hchain, hbound, hpend⟩, [], by simp, by simp⟩
    | none =>
      cases m with
      | true =>
        by_cases hc : expenseFor fye infl st.year ≤ qget (applyReturns st.balances rp) 0
        · rw [nextYear_manual_commit fye infl rp hb hps hc]
          refine ⟨histInv_append_row _ hchain hbound rfl _, [_], rfl, by simp⟩
        · rw [nextYear_shortfall fye infl rp hb hps (not_le.mp hc)]
          refine ⟨⟨hchain, hbound, ?_⟩, [], by simp, by simp⟩
          intro p hp
          simp only [Option.some.injEq] at hp
          rw [← hp]
          rfl
      | false =>
        rw [nextYear_auto fye infl rp hb hps]
        exact ⟨histInv_append_row _ hchain hbound rfl _, [_], rfl, by simp⟩
  | transfer fromIdx toIdx amount st =>
    by_cases hok : (transferFunds fromIdx toIdx amount st).2 = none
    case neg =>
      have huneq : (transferFunds fromIdx toIdx amount st).1 = st := by
        by_cases h1 : fromIdx = toIdx
        · rw [transferFunds_sameBucket amount h1]
        by_cases h2 : st.balances = []
        · rw [transferFunds_notStarted amount h1 h2]
        by_cases h3 : amount ≤ 0
        · rw [transferFunds_nonPositive h1 h2 h3]
        push_neg at h3
        by_cases h4 : qget st.balances fromIdx < amount
        · rw [transferFunds_insufficient h1 h2 h3 h4]
        · exfalso
          apply hok
          cases hps : st.pending with
          | none => rw [transferFunds_idle h1 h2 h3 (not_lt.mp h4) hps]
          | some p =>
            by_cases h5 : p.expenseThisYear ≤
              qget (applyDelta p.balancesBeforeWithdrawal fromIdx toIdx amount) 0
            · rw [transferFunds_resolve h1 h2 h3 (not_lt.mp h4) hps h5]
            · rw [transferFunds_stay h1 h2 h3 (not_lt.mp h4) hps (not_le.mp h5)]
      rw [huneq]
      exact ⟨⟨hchain, hbound, hpend⟩, [], by simp, by simp⟩
    case pos =>
      obtain ⟨h1, h2, h3, h4⟩ := transferFunds_ok_conditions hok
      cases hps : st.pending with
      | none =>
        rw [transferFunds_idle h1 h2 h3 h4 hps]
        refine ⟨⟨hchain, hbound, ?_⟩, [], by simp, by simp⟩
        intro p hp
        simp only at hp
        rw [hps] at hp
        simp at hp
      | some p =>
        by_cases h5 : p.expenseThisYear ≤
          qget (applyDelta p.balancesBeforeWithdrawal fromIdx toIdx amount) 0
        · rw [transferFunds_resolve h1 h2 h3 h4 hps h5]
          have hpy : p.year = st.year + 1 := hpend p hps
          have hne : ∀ r ∈ st.history, r.year ≠ p.year := by
            intro r hr
            rw [hpy]
            exact Nat.ne_of_lt (Nat.lt_succ_of_le (hbound r hr).2)
          constructor
          · rw [filter_year_ne hne, hpy]
            exact histInv_append_row _ hchain hbound rfl _
          · refine ⟨[mkRow p.year p.returnAmounts
                (resolvedBalances p fromIdx toIdx amount)], ?_, by simp⟩
            show _ ++ _ = _
            rw [filter_year_ne hne]
            rfl
        · rw [transferFunds_stay h1 h2 h3 h4 hps (not_le.mp h5)]
          refine ⟨⟨hchain, hbound, ?_⟩, [], by simp, by simp⟩
          intro q hq
          simp only [Option.some.injEq] at hq
          rw [← hq]
          exact hpend p hps

/-- A successful start establishes the history invariant. -/
theorem histInv_start {buckets : List Bucket} {corpus : ℚ} {st0 st : SimState}
    (h : startSimulation buckets corpus st0 = (st, none)) : HistInv st := by
  by_cases hr : jsRound (buckets.foldl (fun s b => s + b.allocation) 0) ≠ 100
  · simp [startSimulation, hr] at h
  · simp only [startSimulation] at h
    rw [if_neg hr] at h
    injection h with h1 h2
    rw [← h1]
    exact ⟨by simp, by simp, by simp⟩

/-- Every reachable state satisfies the history invariant. -/
theorem reachable_histInv {st : SimState} (h : Reachable st) : HistInv st := by
  induction h with
  | start buckets corpus st0 st h => exact histInv_start h
  | step st st' h hs ih => exact (histInv_step ih hs).1

/-! ## NaN propagation through the sampler -/

theorem jadd_nan_right (x : JNum) : JNum.jadd x .nan = .nan := by
  cases x <;> rfl

theorem jmul_nan_left (y : JNum) : JNum.jmul .nan y = .nan := by
  cases y <;> rfl

theorem getD_listD {α : Type} {l : List α} {x : α} {d : α} :
    (l ++ [x]).getD l.length d = x := by
  simp [List.getD, List.getElem?_append_right (Nat.le_refl _)]

theorem getD_append_len {α : Type} {l : List α} {x : α} {d : α} {i : ℕ}
    (h : l.length = i) : (l ++ [x]).getD i d = x := by
  subst h
  exact getD_listD

theorem getD_append_lt {α : Type} {l l2 : List α} {i : ℕ} {d : α}
    (h : i < l.length) : (l ++ l2).getD i d = l.getD i d := by
  simp [List.getD, List.getElem?_append_left h]

theorem getD_range_map {α : Type} {n i : ℕ} {f : ℕ → α} {d : α} (h : i < n) :
    ((List.range n).map f).getD i d = f i := by
  simp [List.getD, List.getElem?_map, List.getElem?_range h]

theorem rowUpTo_length (A prev : List (List JNum)) (i : ℕ) :
    ∀ j, (rowUpTo A prev i j).length = j := by
  intro j
  induction j with
  | zero => rfl
  | succ j ih => simp [rowUpTo, ih]

theorem cholRows_length (A : List (List JNum)) (n : ℕ) :
    (cholRows A n).length = n := by
  induction n with
  | zero => rfl
  | succ n ih => simp [cholRows, ih]

/-- Row i of the factor is the row built from the first i rows: the
write-once discipline of the imperative loops means later rows never
change earlier ones. -/
theorem cholRows_getD {A : List (List JNum)} {n i : ℕ} (h : i < n) :
    (cholRows A n).getD i [] = rowUpTo A (cholRows A i) i (i + 1) := by
  induction n with
  | zero => exact absurd h (Nat.not_lt_zero i)
  | succ n ih =>
    rcases Nat.lt_succ_iff_lt_or_eq.mp h with h | rfl
    · rw [cholRows, getD_append_lt (by rw [cholRows_length]; exact h)]
      exact ih h
    · rw [cholRows]
      exact getD_append_len (cholRows_length A i)

/-- When the argument of the diagonal square root at row i is an actual
negative number, the factor's diagonal entry L[i][i] is NaN (Math.sqrt of
a negative argument). -/
theorem cholesky_diag_nan {A : List (List JNum)} {n i : ℕ} {q : ℚ}
    (hn : i < n) (harg : sqrtArgAt A i = .num q) (hq : q < 0) :
    jget (jrow (cholesky A n) i) i = .nan := by
  rw [cholesky, jrow, cholRows_getD hn]
  show jget (rowUpTo A (cholRows A i) i i ++ [_]) i = .nan
  rw [jget, getD_append_len (rowUpTo_length A (cholRows A i) i i)]
  rw [if_pos rfl]
  have : JNum.jsub (jget (jrow A i) i)
      (chsum (rowUpTo A (cholRows A i) i i) (rowUpTo A (cholRows A i) i i) i) =
      .num q := harg
  rw [this, JNum.jsqrt, if_pos hq]

/-- A NaN diagonal entry poisons the correlated sum for that bucket: the
j = i term of the accumulation is NaN × z[i] = NaN, and adding NaN to the
accumulator yields NaN. -/
theorem correlatedOf_nan {L : List (List JNum)} {z : List JNum} {i : ℕ}
    (h : jget (jrow L i) i = .nan) : correlatedOf L z i = .nan := by
  rw [correlatedOf, List.range_succ, List.foldl_append]
  simp only [List.foldl_cons, List.foldl_nil, h, jmul_nan_left, jadd_nan_right]

/-! ## Pointwise description of the transfer delta -/

theorem applyDelta_length (l : List ℚ) (fromIdx toIdx : ℕ) (amount : ℚ) :
    (applyDelta l fromIdx toIdx amount).length = l.length := by
  simp [applyDelta]

theorem applyDelta_qget_from {l : List ℚ} {fromIdx toIdx : ℕ} {amount : ℚ}
    (hne : fromIdx ≠ toIdx) (h : fromIdx < l.length) :
    qget (applyDelta l fromIdx toIdx amount) fromIdx = qget l fromIdx - amount := by
  rw [applyDelta]
  rw [qget_set_ne (Ne.symm hne), qget_set_self h]

theorem applyDelta_qget_to {l : List ℚ} {fromIdx toIdx : ℕ} {amount : ℚ}
    (hne : fromIdx ≠ toIdx) (h : toIdx < l.length) :
    qget (applyDelta l fromIdx toIdx amount) toIdx = qget l toIdx + amount := by
  rw [applyDelta]
  rw [qget_set_self (by simpa using h), qget_set_ne hne]

theorem applyDelta_qget_other {l : List ℚ} {fromIdx toIdx i : ℕ} {amount : ℚ}
    (h1 : i ≠ fromIdx) (h2 : i ≠ toIdx) :
    qget (applyDelta l fromIdx toIdx amount) i = qget l i := by
  rw [applyDelta]
  rw [qget_set_ne (Ne.symm h2), qget_set_ne (Ne.symm h1)]

/-! ## The claims -/

/-- Claim C7: startSimulation succeeds iff the allocation percentages
Math.round to exactly 100; on failure the only outcome is the
configuration alert and the state — in particular the balance vector — is
untouched; on success the balances are corpus × allocation/100 per bucket
and history / year counter / pendingYear are cleared. -/
theorem c7_start_characterization :
    ∀ (buckets : List Bucket) (corpus : ℚ) (st : SimState),
    ((startSimulation buckets corpus st).2 = none ↔
      jsRound (buckets.foldl (fun s b => s + b.allocation) 0) = 100) ∧
    ((startSimulation buckets corpus st).2 ≠ none →
      (startSimulation buckets corpus st).2 = some SimError.configuration ∧
      (startSimulation buckets corpus st).1 = st) ∧
    ((startSimulation buckets corpus st).2 = none →
      (startSimulation buckets corpus st).1 =
        { balances := buckets.map (fun b => corpus * (b.allocation / 100)),
          history := [], year := 0, pending := none }) := by
  intro buckets corpus st
  by_cases hr : jsRound (buckets.foldl (fun s b => s + b.allocation) 0) = 100
  · simp [startSimulation, hr]
  · simp [startSimulation, hr]

/-- Witness for C7 at a concrete rejected configuration (a single bucket
with allocation 60): the call reports the configuration error and leaves
the state untouched. -/
theorem c7_start_characterization_witness :
    (startSimulation [⟨"a", 60, 0, 0⟩] 100 initialState).2 = some SimError.configuration ∧
    (startSimulation [⟨"a", 60, 0, 0⟩] 100 initialState).1 = initialState := by
  apply (c7_start_characterization [⟨"a", 60, 0, 0⟩] 100 initialState).2.1
  have hv : (startSimulation [⟨"a", 60, 0, 0⟩] 100 initialState).2 =
      some SimError.configuration := by
    norm_num [startSimulation, jsRound]
  rw [hv]
  simp

/-- Claim C6: every rejected operation leaves the state unchanged, and the
rejection conditions are exactly: for advanceYear, an uninitialized ledger
or an existing pendingYear (the latter reported as the state conflict);
for transfer, an uninitialized ledger, equal indices, a non-positive
amount, or an insufficient source balance. -/
theorem c6_rejection_exactness :
    ∀ (st : SimState) (m : Bool) (fye infl : ℚ) (rp : List ℚ)
      (fromIdx toIdx : ℕ) (amount : ℚ),
    fromIdx < st.balances.length →
    (((nextYear m fye infl rp st).2 = none ↔
        st.balances ≠ [] ∧ st.pending = none) ∧
     ((nextYear m fye infl rp st).2 = some SimError.stateConflict ↔
        st.balances ≠ [] ∧ st.pending ≠ none) ∧
     ((nextYear m fye infl rp st).2 ≠ none → (nextYear m fye infl rp st).1 = st)) ∧
    (((transferFunds fromIdx toIdx amount st).2 = none ↔
        fromIdx ≠ toIdx ∧ st.balances ≠ [] ∧ 0 < amount ∧
          amount ≤ qget st.balances fromIdx) ∧
     ((transferFunds fromIdx toIdx amount st).2 ≠ none →
        (transferFunds fromIdx toIdx amount st).1 = st)) := by
  intro st m fye infl rp fromIdx toIdx amount hfrom
  constructor
  · by_cases hb : st.balances = []
    · rw [nextYear_notStarted m fye infl rp hb]
      simp [hb]
    · cases hps : st.pending with
      | some p =>
        rw [nextYear_conflict m fye infl rp hb (by rw [hps]; rfl)]
        simp [hb, hps]
      | none =>
        have hsnd : (nextYear m fye infl rp st).2 = none := by
          cases m with
          | true =>
            by_cases hc : expenseFor fye infl st.year ≤
              qget (applyReturns st.balances rp) 0
            · rw [nextYear_manual_commit fye infl rp hb hps hc]
            · rw [nextYear_shortfall fye infl rp hb hps (not_le.mp hc)]
          | false => rw [nextYear_auto fye infl rp hb hps]
        rw [hsnd]
        simp [hb, hps]
  · by_cases h1 : fromIdx = toIdx
    · rw [transferFunds_sameBucket amount h1]
      simp [h1]
    by_cases h2 : st.balances = []
    · rw [transferFunds_notStarted amount h1 h2]
      simp [h2]
    by_cases h3 : amount ≤ 0
    · rw [transferFunds_nonPositive h1 h2 h3]
      simp [not_lt.mpr h3]
    push_neg at h3
    by_cases h4 : qget st.balances fromIdx < amount
    · rw [transferFunds_insufficient h1 h2 h3 h4]
      simp [not_le.mpr h4]
    · have h4' := not_lt.mp h4
      have hsnd : (transferFunds fromIdx toIdx amount st).2 = none := by
        cases hps : st.pending with
        | none => rw [transferFunds_idle h1 h2 h3 h4' hps]
        | some p =>
          by_cases h5 : p.expenseThisYear ≤
            qget (applyDelta p.balancesBeforeWithdrawal fromIdx toIdx amount) 0
          · rw [transferFunds_resolve h1 h2 h3 h4' hps h5]
          · rw [transferFunds_stay h1 h2 h3 h4' hps (not_le.mp h5)]
      rw [hsnd]
      simp [h1, h2, h3, h4']

/-- Witness for C6 at a concrete state (balances [10, 20], no pendingYear):
calling advanceYear again right after a successful advanceYear is possible
(the success iff holds), and the transfer iff holds at from = 0, to = 1,
amount = 5. -/
theorem c6_rejection_exactness_witness :
    ((nextYear true 5 0 [0, 0] ⟨[10, 20], [], 0, none⟩).2 = none ↔
      ([10, 20] : List ℚ) ≠ [] ∧ (none : Option PendingYear) = none) ∧
    ((transferFunds 0 1 5 ⟨[10, 20], [], 0, none⟩).2 = none ↔
      (0 : ℕ) ≠ 1 ∧ ([10, 20] : List ℚ) ≠ [] ∧ (0 : ℚ) < 5 ∧
        (5 : ℚ) ≤ qget [10, 20] 0) := by
  have h := c6_rejection_exactness ⟨[10, 20], [], 0, none⟩ true 5 0 [0, 0] 0 1 5
    (by norm_num)
  exact ⟨h.1.1, h.2.1⟩

/-- Claim C2, counterexample: with balances [100, 100], expense 150 and
sampled returns [10%, 0%], advanceYear hits the manual shortfall: the
pendingYear snapshot holds the post-return balances [110, 100], but the
live balance vector stays [100, 100] — its pre-return values — so the
claim's final clause (live balances equal post-return values) is false. -/
theorem c2_counterexample :
    nextYear true 150 0 [10, 0]
        { balances := [100, 100], history := [], year := 0, pending := none } =
      ({ balances := [100, 100], history := [], year := 0,
         pending := some ⟨1, [10, 0], [10, 0], [110, 100], 150, 40⟩ }, none) ∧
    ([100, 100] : List ℚ) ≠ [110, 100] := by
  constructor
  · norm_num [nextYear, List.cons_ne_nil, expenseFor, applyReturns,
      returnAmountsOf, qget, List.range_succ]
  · simp

/-- Claim C2 (amended): in manual mode, when the post-return liquid bucket
cannot cover this year's expense, advanceYear withdraws nothing, creates
the PendingYear snapshot (post-return balances, sampled return amounts,
expense, shortfall = expense − post-return liquid balance), appends no
HistoryRow, and returns with the live balance vector unchanged — equal to
its pre-advanceYear (pre-return) values; the post-return balances live
only in the snapshot. -/
theorem c2_manual_shortfall_no_mutation :
    ∀ (st : SimState) (fye infl : ℚ) (rp : List ℚ),
    st.balances ≠ [] → st.pending = none →
    qget (applyReturns st.balances rp) 0 < expenseFor fye infl st.year →
    (nextYear true fye infl rp st).2 = none ∧
    (nextYear true fye infl rp st).1.balances = st.balances ∧
    (nextYear true fye infl rp st).1.history = st.history ∧
    (nextYear true fye infl rp st).1.year = st.year ∧
    (nextYear true fye infl rp st).1.pending = some (mkPending st fye infl rp) := by
  intro st fye infl rp hb hp hc
  rw [nextYear_shortfall fye infl rp hb hp hc]
  exact ⟨rfl, rfl, rfl, rfl, rfl⟩

/-- Witness for C2 (amended) at the counterexample input: live balances,
history and year are untouched and the snapshot pendingYear is created. -/
theorem c2_manual_shortfall_no_mutation_witness :
    (nextYear true 150 0 [10, 0]
        { balances := [100, 100], history := [], year := 0, pending := none }).1.balances =
      [100, 100] ∧
    (nextYear true 150 0 [10, 0]
        { balances := [100, 100], history := [], year := 0, pending := none }).1.history = [] ∧
    (nextYear true 150 0 [10, 0]
        { balances := [100, 100], history := [], year := 0, pending := none }).1.pending =
      some (mkPending ⟨[100, 100], [], 0, none⟩ 150 0 [10, 0]) := by
  have h := c2_manual_shortfall_no_mutation ⟨[100, 100], [], 0, none⟩ 150 0 [10, 0]
    (by simp) rfl
    (by norm_num [applyReturns, qget, expenseFor, List.range_succ])
  exact ⟨h.2.1, h.2.2.1, h.2.2.2.2⟩

/-- Claim C4: once the delta-adjusted snapshot liquid bucket covers the
pending expense, the transfer call subtracts the expense from the snapshot
liquid bucket, commits a HistoryRow whose return amounts are exactly the
pendingYear's stored returnAmounts — the amounts sampled at the original
advanceYear call; transferFunds takes no random input, so they can never
be re-sampled — clears the pendingYear and returns the engine to the idle
state; a transfer that does not yet cover the expense keeps the pendingYear
with the same stored returnAmounts. -/
theorem c4_resolution_fidelity :
    ∀ (st : SimState) (p : PendingYear) (fromIdx toIdx : ℕ) (amount : ℚ),
    st.pending = some p →
    (transferFunds fromIdx toIdx amount st).2 = none →
    (∀ r ∈ st.history, r.year ≠ p.year) →
    (p.expenseThisYear ≤
        qget (applyDelta p.balancesBeforeWithdrawal fromIdx toIdx amount) 0 →
      (transferFunds fromIdx toIdx amount st).1.pending = none ∧
      (transferFunds fromIdx toIdx amount st).1.history = st.history ++
        [mkRow p.year p.returnAmounts (resolvedBalances p fromIdx toIdx amount)] ∧
      (transferFunds fromIdx toIdx amount st).1.balances =
        resolvedBalances p fromIdx toIdx amount ∧
      (transferFunds fromIdx toIdx amount st).1.year = p.year) ∧
    (qget (applyDelta p.balancesBeforeWithdrawal fromIdx toIdx amount) 0 <
        p.expenseThisYear →
      (transferFunds fromIdx toIdx amount st).1.pending =
        some (stayPending p fromIdx toIdx amount) ∧
      (stayPending p fromIdx toIdx amount).returnAmounts = p.returnAmounts) := by
  intro st p fromIdx toIdx amount hp hok hny
  obtain ⟨h1, h2, h3, h4⟩ := transferFunds_ok_conditions hok
  constructor
  · intro hr
    rw [transferFunds_resolve h1 h2 h3 h4 hp hr]
    refine ⟨rfl, ?_, rfl, rfl⟩
    show _ ++ _ = _ ++ _
    rw [filter_year_ne hny]
    rfl
  · intro hr
    rw [transferFunds_stay h1 h2 h3 h4 hp hr]
    exact ⟨rfl, rfl⟩

/-- Witness for C4 at a concrete resolving transfer: the snapshot
[100, 150] plus a transfer of 40 from bucket 1 to bucket 0 covers the
pending expense 120; the committed row carries the stored return amounts
[0, -150] and the engine returns to idle. -/
theorem c4_resolution_fidelity_witness :
    (transferFunds 1 0 40
        { balances := [100, 300], history := [], year := 0,
          pending := some ⟨1, [0, -50], [0, -150], [100, 150], 120, 20⟩ }).1.pending =
      none ∧
    (transferFunds 1 0 40
        { balances := [100, 300], history := [], year := 0,
          pending := some ⟨1, [0, -50], [0, -150], [100, 150], 120, 20⟩ }).1.history =
      [] ++ [mkRow 1 [0, -150]
        (resolvedBalances ⟨1, [0, -50], [0, -150], [100, 150], 120, 20⟩ 1 0 40)] := by
  have h := c4_resolution_fidelity
    { balances := [100, 300], history := [], year := 0,
      pending := some ⟨1, [0, -50], [0, -150], [100, 150], 120, 20⟩ }
    ⟨1, [0, -50], [0, -150], [100, 150], 120, 20⟩ 1 0 40 rfl
    (by norm_num [transferFunds, List.cons_ne_nil, applyDelta, qget])
    (by simp)
  have hr := h.1 (by norm_num [applyDelta, qget])
  exact ⟨hr.1, hr.2.1⟩

/-- Claim C5: in auto mode advanceYear withdraws bucket by bucket in
configuration order, min(remainingExpense, balance) from each, so the
total withdrawn — post-return total minus ending total — equals
min(expense, post-return total); and when the post-return total is below
the expense, every ending balance is exactly zero. -/
theorem c5_auto_conservation :
    ∀ (st : SimState) (fye infl : ℚ) (rp : List ℚ),
    st.balances ≠ [] → st.pending = none →
    (nextYear false fye infl rp st).2 = none ∧
    (applyReturns st.balances rp).sum -
        (nextYear false fye infl rp st).1.balances.sum =
      min (expenseFor fye infl st.year) (applyReturns st.balances rp).sum ∧
    ((applyReturns st.balances rp).sum < expenseFor fye infl st.year →
      ∀ x ∈ (nextYear false fye infl rp st).1.balances, x = 0) := by
  intro st fye infl rp hb hp
  have hnn := applyReturns_nonneg st.balances rp
  have hne : applyReturns st.balances rp ≠ [] := by
    have hlen := applyReturns_length st.balances rp
    intro hcon
    rw [hcon] at hlen
    exact hb (List.eq_nil_of_length_eq_zero hlen.symm)
  have hsum := autoLoop_sum (applyReturns st.balances rp) (expenseFor fye infl st.year)
  have hl0 : (0 : ℚ) ≤
      (autoLoop (applyReturns st.balances rp) (expenseFor fye infl st.year)).1.sum :=
    List.sum_nonneg (autoLoop_nonneg _ _ hnn)
  have hbal : (nextYear false fye infl rp st).1.balances = autoBalancesOf st fye infl rp := by
    rw [nextYear_auto fye infl rp hb hp]
  have hsnd : (nextYear false fye infl rp st).2 = none := by
    rw [nextYear_auto fye infl rp hb hp]
  rcases autoLoop_rem (applyReturns st.balances rp) (expenseFor fye infl st.year)
      hnn hne with hr | ⟨hr1, hr2⟩
  · have hcover : expenseFor fye infl st.year ≤ (applyReturns st.balances rp).sum := by
      rw [hr] at hsum
      nlinarith
    refine ⟨hsnd, ?_, ?_⟩
    · rw [hbal, autoBalancesOf, if_neg (by rw [hr]; exact lt_irrefl 0)]
      rw [hsum, hr, min_eq_left hcover]
      ring
    · intro hlt
      exact absurd hcover (not_le.mpr hlt)
  · have hshort : (applyReturns st.balances rp).sum < expenseFor fye infl st.year := by
      rw [hr1] at hr2
      linarith
    refine ⟨hsnd, ?_, ?_⟩
    · rw [hbal, autoBalancesOf, if_pos hr2]
      have hz : ((autoLoop (applyReturns st.balances rp)
          (expenseFor fye infl st.year)).1.map (fun _ => (0 : ℚ))).sum = 0 := by
        simp
      rw [hz, min_eq_right hshort.le]
      ring
    · intro hlt x hx
      rw [hbal, autoBalancesOf, if_pos hr2] at hx
      simp only [List.mem_map] at hx
      obtain ⟨y, -, rfl⟩ := hx
      rfl

/-- Witness for C5 at a concrete fully depleted year: balances [10, 20],
zero returns, expense 100 — the withdrawal takes the whole total 30 =
min(100, 30) and every ending balance is exactly zero. -/
theorem c5_auto_conservation_witness :
    ([10, 20] : List ℚ) ≠ [] ∧
    (applyReturns [10, 20] [0, 0]).sum -
        (nextYear false 100 0 [0, 0] ⟨[10, 20], [], 0, none⟩).1.balances.sum =
      min (expenseFor 100 0 0) (applyReturns [10, 20] [0, 0]).sum ∧
    (∀ x ∈ (nextYear false 100 0 [0, 0] ⟨[10, 20], [], 0, none⟩).1.balances, x = 0) := by
  have h := c5_auto_conservation ⟨[10, 20], [], 0, none⟩ 100 0 [0, 0] (by simp) rfl
  refine ⟨by simp, h.2.1, h.2.2 ?_⟩
  norm_num [applyReturns, qget, expenseFor, List.range_succ]

/-- Claim C8, counterexample: a successful transfer of 40 from bucket 1 to
bucket 0 that resolves a pending year does not change the live ledger by
the transfer delta: the live balances [100, 300] are replaced by the
resolved snapshot [20, 110], so balance[from] + balance[to] goes from 400
to 130 — transfer conservation fails for resolving transfers. -/
theorem c8_counterexample :
    startSimulation [⟨"Liquid Funds", 25, 0, 0⟩, ⟨"Debt Funds", 75, 0, 0⟩] 400
        initialState =
      ({ balances := [100, 300], history := [], year := 0, pending := none }, none) ∧
    nextYear true 120 0 [0, -50]
        { balances := [100, 300], history := [], year := 0, pending := none } =
      ({ balances := [100, 300], history := [], year := 0,
         pending := some ⟨1, [0, -50], [0, -150], [100, 150], 120, 20⟩ }, none) ∧
    (transferFunds 1 0 40
        { balances := [100, 300], history := [], year := 0,
          pending := some ⟨1, [0, -50], [0, -150], [100, 150], 120, 20⟩ }).2 = none ∧
    (transferFunds 1 0 40
        { balances := [100, 300], history := [], year := 0,
          pending := some ⟨1, [0, -50], [0, -150], [100, 150], 120, 20⟩ }).1.balances =
      [20, 110] ∧
    ((20 : ℚ) + 110 ≠ 300 + 100) := by
  refine ⟨?_, ?_, ?_, ?_, by norm_num⟩
  · norm_num [startSimulation, jsRound, initialState]
  · norm_num [nextYear, List.cons_ne_nil, expenseFor, applyReturns,
      returnAmountsOf, qget, List.range_succ]
  · norm_num [transferFunds, List.cons_ne_nil, applyDelta, qget]
  · norm_num [transferFunds, List.cons_ne_nil, applyDelta, qget]

/-- Claim C8 (amended): a successful transfer always applies exactly
balance[from] −= amount and balance[to] += amount to whatever list it
updates: in the idle state and in the non-resolving pending state this is
the live ledger (so balance[from] + balance[to] is conserved there), and
in the pending state the identical delta is also applied to the snapshot;
but when the transfer resolves the pending year, the live ledger is
replaced by the adjusted snapshot with the expense subtracted from the
liquid bucket rather than changed by the delta. -/
theorem c8_transfer_delta :
    ∀ (st : SimState) (fromIdx toIdx : ℕ) (amount : ℚ),
    fromIdx < st.balances.length → toIdx < st.balances.length →
    (transferFunds fromIdx toIdx amount st).2 = none →
    ((st.pending = none →
        (transferFunds fromIdx toIdx amount st).1.balances =
          applyDelta st.balances fromIdx toIdx amount) ∧
     (∀ p, st.pending = some p →
        qget (applyDelta p.balancesBeforeWithdrawal fromIdx toIdx amount) 0 <
          p.expenseThisYear →
        (transferFunds fromIdx toIdx amount st).1.balances =
          applyDelta st.balances fromIdx toIdx amount ∧
        (transferFunds fromIdx toIdx amount st).1.pending =
          some (stayPending p fromIdx toIdx amount)) ∧
     (∀ p, st.pending = some p →
        p.expenseThisYear ≤
          qget (applyDelta p.balancesBeforeWithdrawal fromIdx toIdx amount) 0 →
        (transferFunds fromIdx toIdx amount st).1.balances =
          resolvedBalances p fromIdx toIdx amount)) ∧
    (qget (applyDelta st.balances fromIdx toIdx amount) fromIdx =
        qget st.balances fromIdx - amount ∧
     qget (applyDelta st.balances fromIdx toIdx amount) toIdx =
        qget st.balances toIdx + amount ∧
     (∀ i, i ≠ fromIdx → i ≠ toIdx →
        qget (applyDelta st.balances fromIdx toIdx amount) i = qget st.balances i) ∧
     qget (applyDelta st.balances fromIdx toIdx amount) fromIdx +
        qget (applyDelta st.balances fromIdx toIdx amount) toIdx =
       qget st.balances fromIdx + qget st.balances toIdx) := by
  intro st fromIdx toIdx amount hfrom hto hok
  obtain ⟨h1, h2, h3, h4⟩ := transferFunds_ok_conditions hok
  refine ⟨⟨?_, ?_, ?_⟩, ?_, ?_, ?_, ?_⟩
  · intro hp
    rw [transferFunds_idle h1 h2 h3 h4 hp]
  · intro p hp hr
    rw [transferFunds_stay h1 h2 h3 h4 hp hr]
    exact ⟨rfl, rfl⟩
  · intro p hp hr
    rw [transferFunds_resolve h1 h2 h3 h4 hp hr]
  · exact applyDelta_qget_from h1 hfrom
  · exact applyDelta_qget_to h1 hto
  · intro i hi1 hi2
    exact applyDelta_qget_other hi1 hi2
  · rw [applyDelta_qget_from h1 hfrom, applyDelta_qget_to h1 hto]
    ring

/-- Witness for C8 (amended) at a concrete idle-state transfer of 5 from
bucket 0 to bucket 1 on balances [10, 20]. -/
theorem c8_transfer_delta_witness :
    (transferFunds 0 1 5 ⟨[10, 20], [], 0, none⟩).1.balances =
      applyDelta [10, 20] 0 1 5 ∧
    qget (applyDelta ([10, 20] : List ℚ) 0 1 5) 0 +
        qget (applyDelta ([10, 20] : List ℚ) 0 1 5) 1 =
      qget [10, 20] 0 + qget [10, 20] 1 := by
  have h := c8_transfer_delta ⟨[10, 20], [], 0, none⟩ 0 1 5
    (by norm_num) (by norm_num)
    (by norm_num [transferFunds, List.cons_ne_nil, qget])
  exact ⟨h.1.1 rfl, h.2.2.2.2⟩

/-- Claim C10: a successful transfer performed while no pending year
exists changes only the two affected bucket balances; the history, the
completed-year counter and the absence of a pendingYear are untouched, so
idle-state transfers never retroactively alter committed history. -/
theorem c10_idle_transfer_frame :
    ∀ (st : SimState) (fromIdx toIdx : ℕ) (amount : ℚ),
    st.pending = none →
    (transferFunds fromIdx toIdx amount st).2 = none →
    fromIdx < st.balances.length → toIdx < st.balances.length →
    (transferFunds fromIdx toIdx amount st).1.history = st.history ∧
    (transferFunds fromIdx toIdx amount st).1.year = st.year ∧
    (transferFunds fromIdx toIdx amount st).1.pending = none ∧
    (transferFunds fromIdx toIdx amount st).1.balances.length = st.balances.length ∧
    qget (transferFunds fromIdx toIdx amount st).1.balances fromIdx =
      qget st.balances fromIdx - amount ∧
    qget (transferFunds fromIdx toIdx amount st).1.balances toIdx =
      qget st.balances toIdx + amount ∧
    (∀ i, i ≠ fromIdx → i ≠ toIdx →
      qget (transferFunds fromIdx toIdx amount st).1.balances i =
        qget st.balances i) := by
  intro st fromIdx toIdx amount hp hok hfrom hto
  obtain ⟨h1, h2, h3, h4⟩ := transferFunds_ok_conditions hok
  rw [transferFunds_idle h1 h2 h3 h4 hp]
  refine ⟨rfl, rfl, hp, applyDelta_length st.balances fromIdx toIdx amount,
    applyDelta_qget_from h1 hfrom, applyDelta_qget_to h1 hto, ?_⟩
  intro i hi1 hi2
  exact applyDelta_qget_other hi1 hi2

/-- Witness for C10 at the same concrete idle-state transfer: history,
year and pendingYear are untouched and the balances change by the delta. -/
theorem c10_idle_transfer_frame_witness :
    (transferFunds 0 1 5 ⟨[10, 20], [⟨1, [0, 0], [10, 20], 30⟩], 1, none⟩).1.history =
      [⟨1, [0, 0], [10, 20], 30⟩] ∧
    (transferFunds 0 1 5 ⟨[10, 20], [⟨1, [0, 0], [10, 20], 30⟩], 1, none⟩).1.pending =
      none ∧
    qget (transferFunds 0 1 5
        ⟨[10, 20], [⟨1, [0, 0], [10, 20], 30⟩], 1, none⟩).1.balances 0 =
      qget [10, 20] 0 - 5 := by
  have h := c10_idle_transfer_frame ⟨[10, 20], [⟨1, [0, 0], [10, 20], 30⟩], 1, none⟩
    0 1 5 rfl (by norm_num [transferFunds, List.cons_ne_nil, qget])
    (by norm_num) (by norm_num)
  exact ⟨h.1, h.2.2.1, h.2.2.2.2.1⟩

/-- Claim C9: on every reachable state the committed year indices are
positive, strictly increasing in append order and therefore unique; and
every further advanceYear / transfer call only ever appends — the old
history is a prefix of the new one and at most one row is added per call
(exactly one on a commit, zero otherwise). -/
theorem c9_history_append_only :
    ∀ st : SimState, Reachable st →
    (List.Chain' (fun a b => a < b) (st.history.map HistoryRow.year) ∧
     (∀ r ∈ st.history, 0 < r.year) ∧
     (st.history.map HistoryRow.year).Nodup) ∧
    (∀ st', SimStep st st' →
      ∃ t, st'.history = st.history ++ t ∧ t.length ≤ 1) := by
  intro st h
  obtain ⟨hchain, hbound, hpend⟩ := reachable_histInv h
  refine ⟨⟨hchain, fun r hr => (hbound r hr).1, ?_⟩, ?_⟩
  · have hpw : (st.history.map HistoryRow.year).Pairwise (fun a b => a < b) :=
      List.chain'_iff_pairwise.mp hchain
    exact hpw.imp (fun hab => Nat.ne_of_lt hab)
  · intro st' hs
    exact (histInv_step ⟨hchain, hbound, hpend⟩ hs).2

/-- Witness for C9: a freshly started two-bucket state is reachable, and
the first advanceYear call appends at most one row to its (empty)
history. -/
theorem c9_history_append_only_witness :
    ∃ t, (nextYear true 5 0 [0, 0]
        { balances := [50, 50], history := [], year := 0, pending := none }).1.history =
      [] ++ t ∧ t.length ≤ 1 := by
  have hreach : Reachable
      { balances := [50, 50], history := [], year := 0, pending := none } :=
    Reachable.start [⟨"a", 50, 0, 0⟩, ⟨"b", 50, 0, 0⟩] 100 initialState _
      (by norm_num [startSimulation, jsRound, initialState])
  exact (c9_history_append_only _ hreach).2 _
    (SimStep.next true 5 0 [0, 0] ⟨[50, 50], [], 0, none⟩)

/-- Claim C1 is violated by the code (code bug): from a start with two
50/50 buckets on corpus 100 in manual mode, a year with sampled returns
[0%, −60%] and expense 60 leaves a pendingYear with snapshot [50, 20]
while the live balances stay [50, 50]; the transfer of 30 from bucket 1
passes its check against the live balance 50, but applied to the snapshot
it drives bucket 1 to 20 − 30 = −10, and the resolution installs the
snapshot as the live ledger: the reachable final state has balance −10,
violating the non-negativity invariant. -/
theorem c1_negative_balance_run :
    startSimulation [⟨"Liquid Funds", 50, 0, 0⟩, ⟨"Debt Funds", 50, 0, 0⟩] 100
        initialState =
      ({ balances := [50, 50], history := [], year := 0, pending := none }, none) ∧
    nextYear true 60 0 [0, -60]
        { balances := [50, 50], history := [], year := 0, pending := none } =
      ({ balances := [50, 50], history := [], year := 0,
         pending := some ⟨1, [0, -60], [0, -30], [50, 20], 60, 10⟩ }, none) ∧
    transferFunds 1 0 30
        { balances := [50, 50], history := [], year := 0,
          pending := some ⟨1, [0, -60], [0, -30], [50, 20], 60, 10⟩ } =
      ({ balances := [20, -10], history := [⟨1, [0, -30], [20, -10], 10⟩],
         year := 1, pending := none }, none) ∧
    Reachable
      { balances := [20, -10], history := [⟨1, [0, -30], [20, -10], 10⟩],
        year := 1, pending := none } ∧
    qget [20, -10] 1 < 0 := by
  have h1 : startSimulation [⟨"Liquid Funds", 50, 0, 0⟩, ⟨"Debt Funds", 50, 0, 0⟩]
      100 initialState =
      ({ balances := [50, 50], history := [], year := 0, pending := none }, none) := by
    norm_num [startSimulation, jsRound, initialState]
  have h2 : nextYear true 60 0 [0, -60]
      { balances := [50, 50], history := [], year := 0, pending := none } =
      ({ balances := [50, 50], history := [], year := 0,
         pending := some ⟨1, [0, -60], [0, -30], [50, 20], 60, 10⟩ }, none) := by
    norm_num [nextYear, List.cons_ne_nil, expenseFor, applyReturns,
      returnAmountsOf, qget, List.range_succ]
  have h3 : transferFunds 1 0 30
      { balances := [50, 50], history := [], year := 0,
        pending := some ⟨1, [0, -60], [0, -30], [50, 20], 60, 10⟩ } =
      ({ balances := [20, -10], history := [⟨1, [0, -30], [20, -10], 10⟩],
         year := 1, pending := none }, none) := by
    norm_num [transferFunds, List.cons_ne_nil, applyDelta, qget]
  refine ⟨h1, h2, h3, ?_, by norm_num [qget]⟩
  have r0 : Reachable
      { balances := [50, 50], history := [], year := 0, pending := none } :=
    Reachable.start [⟨"Liquid Funds", 50, 0, 0⟩, ⟨"Debt Funds", 50, 0, 0⟩] 100
      initialState _ h1
  have r1 := Reachable.step _ _ r0 (SimStep.next true 60 0 [0, -60]
    ⟨[50, 50], [], 0, none⟩)
  rw [h2] at r1
  have r2 := Reachable.step _ _ r1 (SimStep.transfer 1 0 30
    ⟨[50, 50], [], 0, some ⟨1, [0, -60], [0, -30], [50, 20], 60, 10⟩⟩)
  rw [h3] at r2
  exact r2

/-- Claim C3, counterexample: the one-bucket correlation matrix [[−1]] is
not positive semi-definite and puts −1 under the square root at the very
first diagonal step, yet the sampling operation does not fail with any
error: it returns ok with a NaN sampled return (Math.sqrt of a negative is
NaN, and the cholesky code has no error path at all). -/
theorem c3_counterexample :
    sqrtArgAt [[.num (-1)]] 0 = .num (-1) ∧
    ((-1 : ℚ) < 0) ∧
    correlatedReturns [.num 0] [.num 1] [[.num (-1)]] [.num 0] =
      .ok [.nan] := by
  refine ⟨?_, by norm_num, ?_⟩
  · norm_num [sqrtArgAt, rowUpTo, cholRows, chsum, jget, jrow, JNum.jsub,
      JNum.jadd, JNum.jneg]
  · norm_num [correlatedReturns, cholesky, cholRows, rowUpTo, chsum,
      correlatedOf, jget, jrow, JNum.jsqrt, JNum.jsub, JNum.jadd, JNum.jneg,
      JNum.jmul, List.range_succ]

/-- Claim C3 (amended): when the Cholesky factorization meets an actual
negative number under a square root at diagonal i, the return-sampling
operation does not fail with any error — it is total, Math.sqrt yields
NaN, and the NaN propagates so that the sampled return of bucket i is
NaN. -/
theorem c3_negative_sqrt_yields_nan :
    ∀ (avg vol : List JNum) (A : List (List JNum)) (z : List JNum)
      (i : ℕ) (q : ℚ),
    i < avg.length → sqrtArgAt A i = .num q → q < 0 →
    ∃ out, correlatedReturns avg vol A z = .ok out ∧
      out.getD i (.num 0) = .nan := by
  intro avg vol A z i q hi harg hq
  refine ⟨(List.range avg.length).map (fun j =>
    JNum.jadd (jget avg j)
      (JNum.jmul (correlatedOf (cholesky A avg.length) z j) (jget vol j))), rfl, ?_⟩
  rw [getD_range_map hi]
  rw [correlatedOf_nan (cholesky_diag_nan hi harg hq), jmul_nan_left,
    jadd_nan_right]

/-- Witness for C3 (amended) at a concrete matrix [[−4]]: the sampled
return of the single bucket is NaN and the operation succeeds. -/
theorem c3_negative_sqrt_yields_nan_witness :
    (0 < ([JNum.num 2] : List JNum).length) ∧
    ∃ out, correlatedReturns [.num 2] [.num 3] [[.num (-4)]] [.num 5] = .ok out ∧
      out.getD 0 (.num 0) = .nan := by
  refine ⟨by norm_num, c3_negative_sqrt_yields_nan [.num 2] [.num 3]
    [[.num (-4)]] [.num 5] 0 (-4) (by norm_num) ?_ (by norm_num)⟩
  norm_num [sqrtArgAt, rowUpTo, cholRows, chsum, jget, jrow, JNum.jsub,
    JNum.jadd, JNum.jneg]

end BucketSim
